import Mathlib

/-!
Shallow embedding of src/src/Proxy.js: the ProxyFactory (lazy proxy classes for
entity classes) and the ObjectManager (an identity map from entity class name to
an array of tracked objects, with schema-driven property construction).

Modelling conventions, each justified against the source:

* JS values are restricted to the fragment `undefined`, `null` and numbers.
  On this fragment the JS loose equality `==` used by `getFromObjectMap`
  (Proxy.js line 115, `map[i].id == id`) is exact: `undefined == null` and
  `null == undefined` are true, numbers compare by value, and no implicit
  string/number coercion can arise.

* JS objects used as records (raw data, `$raw`, `$values`, `toArray` output,
  the object map) are association lists in insertion order; `for (var i in o)`
  iterates keys in that order, reading an absent key yields `undefined`, and
  assignment overwrites the existing binding or appends a fresh one.

* A schema property object is a `Property`: `transform = none` models a
  property literal without a `transform` key (the check at Proxy.js line 131 is
  the `in` operator); a transform returning `none` on a value models the
  collaborator transform function throwing on that value.  `reverseTransform`
  is kept total, as `toArray` is the only consumer.

* JS exceptions do not roll back mutations already performed on heap objects,
  so fallible operations return a result that carries the mutated object or
  manager state in both the normal and the thrown case (`ERes`, `MRes`).

* Object identity (JS reference equality, used by `indexOf` at Proxy.js line
  94 and by the claims about reference stability) is modelled by a unique
  allocation tag: every object created by the manager receives the state
  counter `nextTag`, which is then incremented.

* The entity class collaborator is a JS constructor function; its body (the
  post-construction hook) is instrumented as a counter `hookRuns` on each
  instance, incremented exactly when the function body actually executes on
  that instance.  The proxy constructor runs it via `entityClass.call(this)`
  (Proxy.js line 55), which does execute the body on the proxy.  In contrast,
  `ObjectManager.create` runs `entityClass.constructor.call(x)` (lines 213 and
  216).  For a JS function `F` declared by the collaborator, `F.constructor`
  is not `F`: it resolves through `Function.prototype` to the built-in
  `Function` constructor, and invoking `Function.call(x)` ignores its `this`
  argument and simply creates a fresh anonymous function.  It therefore never
  executes the entity class body and has no effect on `x`, so those two calls
  are modelled as no-ops that leave `hookRuns` unchanged.

* The per-name caching of proxy classes in the ProxyFactory (lines 64 to 69)
  is observationally invisible here: `instanceof proxyClass` (line 206) is
  exactly the discrimination between the two constructors of `Tracked`,
  because proxies are the only objects whose prototype chain contains the
  proxy class prototype.
-/

namespace RRM

/-- JS values restricted to the fragment used by the manager: undefined, null
and numbers. -/
inductive Value where
  | undefined
  | vnull
  | num (n : Int)
deriving DecidableEq

/-- Failure outcomes. `notLoaded` is the Error "not loaded" thrown by
`ObjectManager.get` (line 233); `notLoadable` is the Error "Entity cannot be
loaded" thrown by `Proxy.load` (line 22); `transformMandatory` is the Error
"transform is mandatory" thrown by `defineProperty` (line 132); `typeError`
models the implicit TypeError raised when a missing transform is invoked as a
function or when strict mode rejects an assignment to a property without a
setter; `transformThrew` models an exception raised inside a collaborator
transform function. -/
inductive Err where
  | notLoaded
  | notLoadable
  | transformMandatory
  | typeError
  | transformThrew
deriving DecidableEq

/-- JS loose equality `==` on the `Value` fragment (line 115). -/
def looseEq : Value → Value → Bool
  | .undefined, .undefined => true
  | .undefined, .vnull => true
  | .vnull, .undefined => true
  | .vnull, .vnull => true
  | .num n, .num m => n == m
  | _, _ => false

/-- First-binding lookup in an association list: JS object key access. -/
def lookupA {α : Type} : List (String × α) → String → Option α
  | [], _ => none
  | (k, a) :: r, n => if k = n then some a else lookupA r n

/-- Key assignment in an association list: JS object key assignment replaces
the existing binding in place or appends a fresh key at the end. -/
def setA {α : Type} : List (String × α) → String → α → List (String × α)
  | [], n, v => [(n, v)]
  | (k, a) :: r, n, v => if k = n then (n, v) :: r else (k, a) :: setA r n v

/-- A JS object holding values: raw data records, `$raw`, `$values`,
`toArray` output. -/
abbrev Record := List (String × Value)

/-- Reading `r[n]` in JS yields `undefined` when the key is absent. -/
def getKV (r : Record) (n : String) : Value := (lookupA r n).getD .undefined

/-- The `in` operator on a record. -/
def hasKey (r : Record) (n : String) : Bool := (lookupA r n).isSome

/-- One schema property object, as consumed by `defineProperty` (lines 130 to
155) and `toArray` (lines 254 to 262).  The flags are read as JS truthiness of
the `readable`, `writable` and `persistable` keys. -/
structure Property where
  transform : Option (Value → Option Value)
  reverseTransform : Value → Value
  readable : Bool := false
  writable : Bool := false
  persistable : Bool := false

/-- An entity class: the collaborator constructor function together with the
data installed by `ObjectManager.prepareEntity` (lines 300 to 308): `$name`
and the `$schema` object on the prototype. -/
structure EntityClass where
  name : String
  schema : List (String × Property)

/-- A real entity instance: the object allocated by `ObjectManager.create`
(lines 192 to 196) after its accessor loop has completed.  `schema` is the
`$schema` reachable from its prototype, captured so that operations such as
`update` (line 178) that read `existing.$schema` are faithful even when the
entity was built by a different class than the one passed to the current call.
`extra` holds own data properties created by writes to names outside the
schema.  `hookRuns` counts executions of the entity class body on this
instance. -/
structure EntityObj where
  tag : Nat
  schema : List (String × Property)
  raw : Record
  values : Record
  dirty : Bool
  hookRuns : Nat
  extra : Record

/-- A proxy instance created by the ProxyFactory (lines 14 to 62): it captures
the requested id (line 48), starts with `object` (the delegate) undefined
(line 16), and forwards every non-id schema property through `load` (lines 26
to 38).  `hookRuns` counts executions of the entity class body on this
instance; the proxy constructor runs it once at line 55. -/
structure ProxyObj where
  tag : Nat
  schema : List (String × Property)
  capturedId : Value
  object : Option EntityObj
  hookRuns : Nat
  extra : Record

/-- A tracked object in the object map: either a real entity instance or a
proxy instance.  The discrimination is `instanceof proxyClass` (line 206). -/
inductive Tracked where
  | ent (e : EntityObj)
  | prox (p : ProxyObj)

/-- Reading a schema property on a fully built entity: a readable property has
a getter returning `$values[name]` (lines 139 to 143); a schema property that
is not readable has no getter, so the read yields `undefined`; a name outside
the schema reads the own data properties. -/
def entityRead (e : EntityObj) (n : String) : Value :=
  match lookupA e.schema n with
  | some p => if p.readable then getKV e.values n else .undefined
  | none => getKV e.extra n

/-- Reading `t.id`, as `getFromObjectMap` does at line 115: an entity goes
through its accessors; a proxy has the dedicated id getter returning the
captured id (lines 48 to 53). -/
def Tracked.objId : Tracked → Value
  | .ent e => entityRead e "id"
  | .prox p => p.capturedId

/-- Allocation tag of a tracked object, modelling its JS reference identity. -/
def Tracked.tag : Tracked → Nat
  | .ent e => e.tag
  | .prox p => p.tag

/-- Hook-run counter of a tracked object. -/
def Tracked.hookRuns : Tracked → Nat
  | .ent e => e.hookRuns
  | .prox p => p.hookRuns

/-- Allocation tag of the delegate of a tracked proxy, when there is one. -/
def Tracked.delegateTag : Tracked → Option Nat
  | .ent _ => none
  | .prox p => p.object.map (fun e => e.tag)

/-- Outcome of an operation mutating one heap object.  JS exceptions do not
undo mutations, so the thrown case still carries the object as mutated so
far. -/
inductive ERes (α : Type) where
  | ok (a : α)
  | thrown (err : Err) (a : α)

/-- The carried object of an outcome, thrown or not. -/
def ERes.val {α : Type} : ERes α → α
  | .ok a => a
  | .thrown _ a => a

/-- Did the operation throw. -/
def ERes.threw {α : Type} : ERes α → Bool
  | .ok _ => false
  | .thrown _ _ => true

/-- `ObjectManager.loadPropertyValue` (lines 166 to 169): first `$raw[name]`
is overwritten with `data[name]`, then the transform is invoked on it and the
result stored in `$values[name]`.  If the property has no transform the call
itself raises a TypeError, after the raw slot was already overwritten; if the
transform throws, likewise. -/
def loadPropertyValue (e : EntityObj) (n : String) (p : Property) (data : Record) :
    ERes EntityObj :=
  let e1 := { e with raw := setA e.raw n (getKV data n) }
  match p.transform with
  | none => .thrown .typeError e1
  | some f =>
    match f (getKV data n) with
    | none => .thrown .transformThrew e1
    | some v => .ok { e1 with values := setA e1.values n v }

/-- One step of the accessor loop in `create`: `defineProperty` (lines 130 to
155) first checks that the property object has a `transform` key (line 131)
and then applies `loadPropertyValue`.  The accessor installation itself is
reflected by `entityRead` and `entityWrite` reading the flags from the
schema. -/
def definePropertyStep (e : EntityObj) (n : String) (p : Property) (data : Record) :
    ERes EntityObj :=
  match p.transform with
  | none => .thrown .transformMandatory e
  | some _ => loadPropertyValue e n p data

/-- The accessor loop of `create` (lines 200 to 202), over the schema in key
order, stopping at the first exception. -/
def buildProps (e : EntityObj) : List (String × Property) → Record → ERes EntityObj
  | [], _ => .ok e
  | (n, p) :: rest, data =>
    match definePropertyStep e n p data with
    | .ok e1 => buildProps e1 rest data
    | .thrown err e1 => .thrown err e1

/-- The loop of `ObjectManager.update` (lines 177 to 181) over a given schema,
stopping at the first exception and keeping the mutations made so far. -/
def updateProps (e : EntityObj) : List (String × Property) → Record → ERes EntityObj
  | [], _ => .ok e
  | (n, p) :: rest, data =>
    match loadPropertyValue e n p data with
    | .ok e1 => updateProps e1 rest data
    | .thrown err e1 => .thrown err e1

/-- `ObjectManager.update` (lines 177 to 181): iterates `existing.$schema`,
the schema of the existing entity itself. -/
def update (e : EntityObj) (data : Record) : ERes EntityObj :=
  updateProps e e.schema data

/-- Writing `e[n] = v` on a fully built entity, under strict mode: a writable
property runs the setter (lines 145 to 150), which first sets `$dirty` and
then stores the transformed value; a schema property that is not writable has
no setter, so strict mode raises a TypeError; a name outside the schema
creates or overwrites an own data property. -/
def entityWrite (e : EntityObj) (n : String) (v : Value) : ERes EntityObj :=
  match lookupA e.schema n with
  | some p =>
    if p.writable then
      let e1 := { e with dirty := true }
      match p.transform with
      | none => .thrown .typeError e1
      | some f =>
        match f v with
        | none => .thrown .transformThrew e1
        | some w => .ok { e1 with values := setA e1.values n w }
    else .thrown .typeError e
  | none => .ok { e with extra := setA e.extra n v }

/-- Reading `p[n]` on a proxy: the id getter returns the captured id (lines 48
to 53); a non-id schema property first runs `load` (lines 20 to 24), throwing
when the delegate is undefined, and otherwise reads the property on the
delegate (line 30); a name outside the schema reads the own data properties. -/
def proxyRead (p : ProxyObj) (n : String) : Except Err Value :=
  if n = "id" then .ok p.capturedId
  else
    match lookupA p.schema n with
    | some _ =>
      match p.object with
      | none => .error .notLoadable
      | some d => .ok (entityRead d n)
    | none => .ok (getKV p.extra n)

/-- Writing `p[n] = v` on a proxy: the id property has only a getter, so
strict mode raises a TypeError; a non-id schema property first runs `load`
(line 33), throwing when the delegate is undefined, and otherwise performs the
write on the delegate (line 34); a name outside the schema creates or
overwrites an own data property. -/
def proxyWrite (p : ProxyObj) (n : String) (v : Value) : ERes ProxyObj :=
  if n = "id" then .thrown .typeError p
  else
    match lookupA p.schema n with
    | some _ =>
      match p.object with
      | none => .thrown .notLoadable p
      | some d =>
        match entityWrite d n v with
        | .ok d1 => .ok { p with object := some d1 }
        | .thrown err d1 => .thrown err { p with object := some d1 }
    | none => .ok { p with extra := setA p.extra n v }

/-- The loop of `ObjectManager.toArray` (lines 256 to 260) over the schema in
key order, threading the output record being built. -/
def toArrayAux (e : EntityObj) : List (String × Property) → Record → Record
  | [], acc => acc
  | (n, p) :: rest, acc =>
    toArrayAux e rest
      (if p.persistable then setA acc n (p.reverseTransform (entityRead e n)) else acc)

/-- `ObjectManager.toArray` (lines 254 to 262): for every persistable schema
property, in key order, store the reverse transform of the public property
read into the output record. -/
def toArray (e : EntityObj) : Record := toArrayAux e e.schema []

/-- The object map of one manager: `$name` to array of tracked objects
(line 83). -/
abbrev ObjMap := List (String × List Tracked)

/-- Bucket of a class name; `objectMap[name] || []` (lines 93 and 246). -/
def getB (m : ObjMap) (n : String) : List Tracked := (lookupA m n).getD []

/-- `getFromObjectMap` (lines 106 to 120): an undefined id always misses;
otherwise the bucket is scanned in insertion order for the first object whose
id is loosely equal to the requested one. -/
def getFromObjectMap (m : ObjMap) (cls : EntityClass) (id : Value) : Option Tracked :=
  if id = .undefined then none
  else (getB m cls.name).find? (fun t => looseEq t.objId id)

/-- `addToObjectMap` (lines 91 to 97): push the object unless the very same
reference is already in the bucket (`indexOf` uses reference equality,
modelled by the allocation tag). -/
def addToObjectMap (m : ObjMap) (name : String) (t : Tracked) : ObjMap :=
  let b := getB m name
  if b.any (fun x => x.tag == t.tag) then m else setA m name (b ++ [t])

/-- In-place mutation of one tracked object inside a bucket, located by its
reference (allocation tag). -/
def replaceInBucket (b : List Tracked) (tg : Nat) (t : Tracked) : List Tracked :=
  b.map (fun x => if x.tag = tg then t else x)

/-- State of one ObjectManager: the object map and the allocation counter
modelling JS reference identity of the objects it creates. -/
structure OMState where
  objectMap : ObjMap
  nextTag : Nat

/-- A fresh manager. -/
def initState : OMState := { objectMap := [], nextTag := 0 }

/-- Outcome of a manager operation: the returned object and the new manager
state, or the thrown error and the state as mutated before the throw. -/
inductive MRes (α : Type) where
  | ok (a : α) (st : OMState)
  | thrown (err : Err) (st : OMState)

/-- The error of an outcome, when it threw. -/
def MRes.errOf {α : Type} : MRes α → Option Err
  | .ok _ _ => none
  | .thrown err _ => some err

/-- The returned object of an outcome, when it returned. -/
def MRes.retOf {α : Type} : MRes α → Option α
  | .ok a _ => some a
  | .thrown _ _ => none

/-- The final state of an outcome, thrown or not. -/
def MRes.stOf {α : Type} : MRes α → OMState
  | .ok _ st => st
  | .thrown _ st => st

/-- Allocation tag of the returned tracked object, when one was returned. -/
def MRes.retTag : MRes Tracked → Option Nat
  | .ok t _ => some t.tag
  | .thrown _ _ => none

/-- Hook-run counter of the returned tracked object, when one was returned. -/
def MRes.retHookRuns : MRes Tracked → Option Nat
  | .ok t _ => some t.hookRuns
  | .thrown _ _ => none

/-- Public property read on the returned tracked object, when one was
returned. -/
def MRes.readRet : MRes Tracked → String → Option (Except Err Value)
  | .ok (.ent e) _, n => some (.ok (entityRead e n))
  | .ok (.prox p) _, n => some (proxyRead p n)
  | .thrown _ _, _ => none

/-- The object allocated at the top of `create` (lines 192 to 196). -/
def freshEnt (st : OMState) (cls : EntityClass) : EntityObj :=
  { tag := st.nextTag, schema := cls.schema, raw := [], values := [], dirty := false,
    hookRuns := 0, extra := [] }

/-- `ObjectManager.create` (lines 191 to 220).  A fresh object is allocated
and its property set built from the schema; only then is the object map
consulted with `data.id`.  When an entity is already tracked it is updated in
place and returned; when a proxy is tracked (resolved or not), its delegate is
assigned the freshly built object and the proxy is returned; otherwise the
fresh object is registered and returned.  The two occurrences of
`entityClass.constructor.call` (lines 213 and 216) resolve to the built-in
Function constructor and do not execute the entity class body, so they leave
`hookRuns` unchanged (see the file header). -/
def create (st : OMState) (cls : EntityClass) (data : Record) : MRes Tracked :=
  match buildProps (freshEnt st cls) cls.schema data with
  | .thrown err _ => .thrown err { objectMap := st.objectMap, nextTag := st.nextTag + 1 }
  | .ok e =>
    match getFromObjectMap st.objectMap cls (getKV data "id") with
    | some (.ent ex) =>
      match update ex data with
      | .ok ex2 =>
        .ok (.ent ex2)
          { objectMap := setA st.objectMap cls.name
              (replaceInBucket (getB st.objectMap cls.name) ex.tag (.ent ex2)),
            nextTag := st.nextTag + 1 }
      | .thrown err ex2 =>
        .thrown err
          { objectMap := setA st.objectMap cls.name
              (replaceInBucket (getB st.objectMap cls.name) ex.tag (.ent ex2)),
            nextTag := st.nextTag + 1 }
    | some (.prox p) =>
      .ok (.prox { p with object := some e })
        { objectMap := setA st.objectMap cls.name
            (replaceInBucket (getB st.objectMap cls.name) p.tag (.prox { p with object := some e })),
          nextTag := st.nextTag + 1 }
    | none =>
      .ok (.ent e)
        { objectMap := addToObjectMap st.objectMap cls.name (.ent e),
          nextTag := st.nextTag + 1 }

/-- `ObjectManager.get` (lines 230 to 237): pure lookup, throwing when the
map reports a miss. -/
def get (st : OMState) (cls : EntityClass) (id : Value) : MRes Tracked :=
  match getFromObjectMap st.objectMap cls id with
  | none => .thrown .notLoaded st
  | some t => .ok t st

/-- `new proxyClass(id)` (lines 15 to 56): delegate undefined, id captured,
and the entity class body executed once on the proxy via `entityClass.call`
(line 55). -/
def newProxy (cls : EntityClass) (id : Value) (tg : Nat) : ProxyObj :=
  { tag := tg, schema := cls.schema, capturedId := id, object := none, hookRuns := 1,
    extra := [] }

/-- `ObjectManager.createProxy` (lines 290 to 294): instantiate and
register. -/
def createProxy (st : OMState) (cls : EntityClass) (id : Value) : Tracked × OMState :=
  let p : Tracked := .prox (newProxy cls id st.nextTag)
  (p, { objectMap := addToObjectMap st.objectMap cls.name p, nextTag := st.nextTag + 1 })

/-- `ObjectManager.getReference` (lines 272 to 281): lookup, falling back to
proxy creation on a miss. -/
def getReference (st : OMState) (cls : EntityClass) (id : Value) : Tracked × OMState :=
  match getFromObjectMap st.objectMap cls id with
  | some r => (r, st)
  | none => createProxy st cls id

/-- One public manager call of the kinds quantified over by the identity
claims. -/
inductive Op where
  | construct (cls : EntityClass) (data : Record)
  | getRef (cls : EntityClass) (id : Value)

/-- Effect of one call on the manager state (a thrown `create` still leaves
its state behind). -/
def stepOp (st : OMState) : Op → OMState
  | .construct cls data => (create st cls data).stOf
  | .getRef cls id => (getReference st cls id).2

/-- Run a finite sequence of public calls. -/
def run (st : OMState) (ops : List Op) : OMState := ops.foldl stepOp st

/-- Number of tracked objects in the bucket of `name` whose id is loosely
equal to `id`: the tracked objects for the pair (name, id). -/
def countPair (st : OMState) (name : String) (id : Value) : Nat :=
  (getB st.objectMap name).countP (fun t => looseEq t.objId id)

/-- The class shape under which the identity map keeps ids stable: schema keys
are unique (as JS object keys always are) and the id property is readable with
the identity transform, so that a constructed entity reports exactly the id
that was looked up. -/
def goodSchema (s : List (String × Property)) : Prop :=
  (s.map Prod.fst).Nodup ∧
  ∃ p, lookupA s "id" = some p ∧ p.readable = true ∧ p.transform = some (fun v => some v)

/-- Constraint on one public call for the identity invariant: `construct`
calls must use a class of the good shape; `getReference` needs nothing. -/
def goodOp : Op → Prop
  | .construct cls _ => goodSchema cls.schema
  | .getRef _ _ => True

/-- Every property of the schema has a transform that succeeds on the given
data: the hypothesis under which property construction completes. -/
def transformsOk (s : List (String × Property)) (data : Record) : Prop :=
  ∀ np ∈ s, ∃ f v, np.2.transform = some f ∧ f (getKV data np.1) = some v

/-- Invariant maintained by reachable manager states: bucket members have
pairwise distinct allocation tags, all tags are below the allocation counter,
each bucket holds at most one object per loosely matched numeric id, and
every tracked entity carries a schema of the good shape. -/
def Inv (st : OMState) : Prop :=
  ∀ name : String,
    ((getB st.objectMap name).map Tracked.tag).Nodup ∧
    (∀ t ∈ getB st.objectMap name, t.tag < st.nextTag) ∧
    (∀ k : Int, (getB st.objectMap name).countP (fun t => looseEq t.objId (.num k)) ≤ 1) ∧
    (∀ e : EntityObj, Tracked.ent e ∈ getB st.objectMap name → goodSchema e.schema)

/-- A readable, persistable id property with the identity transform. -/
def pId : Property :=
  { transform := some (fun v => some v), reverseTransform := fun v => v, readable := true,
    writable := false, persistable := true }

/-- A readable, writable, persistable property with identity transforms. -/
def pName : Property :=
  { transform := some (fun v => some v), reverseTransform := fun v => v, readable := true,
    writable := true, persistable := true }

/-- A representative well-behaved entity class. -/
def uCls : EntityClass := { name := "User", schema := [("id", pId), ("name", pName)] }

/-- A transform that shifts numbers by 8: a legal collaborator transform that
is not the identity. -/
def shiftT : Value → Option Value
  | .num n => some (.num (n + 8))
  | v => some v

/-- A readable id property whose transform shifts numbers. -/
def pIdShift : Property :=
  { transform := some shiftT, reverseTransform := fun v => v, readable := true,
    writable := false, persistable := false }

/-- An entity class whose id property has a non-identity transform. -/
def shiftCls : EntityClass := { name := "Shift", schema := [("id", pIdShift)] }

/-- A property object declared without a transform key. -/
def pNoTransform : Property :=
  { transform := none, reverseTransform := fun v => v, readable := true,
    writable := false, persistable := false }

/-- An entity class whose second property lacks a transform, so that property
construction fails. -/
def badCls : EntityClass := { name := "Bad", schema := [("id", pId), ("a", pNoTransform)] }

/-- A transform that throws on every non-numeric input. -/
def numOnlyT : Value → Option Value
  | .num n => some (.num n)
  | _ => none

/-- A readable property whose transform throws on non-numeric input. -/
def pThrow : Property :=
  { transform := some numOnlyT, reverseTransform := fun v => v, readable := true,
    writable := false, persistable := false }

/-- An entity class whose last property throws when its raw value is absent. -/
def throwCls : EntityClass :=
  { name := "Throw", schema := [("id", pId), ("a", pName), ("b", pThrow)] }

/-- A tracked entity of `throwCls`, obtained by a successful construct call on
a fresh manager. -/
def c4ent : EntityObj :=
  match create initState throwCls [("id", .num 3), ("a", .num 1), ("b", .num 2)] with
  | .ok (.ent e) _ => e
  | _ => freshEnt initState throwCls

/-- A readable, writable property with identity transforms that is not
persistable. -/
def pW : Property :=
  { transform := some (fun v => some v), reverseTransform := fun v => v, readable := true,
    writable := true, persistable := false }

/-- An entity class with a writable non-persistable property. -/
def wCls : EntityClass := { name := "W", schema := [("id", pId), ("w", pW)] }

/-- A tracked entity of `wCls`, obtained by a successful construct call on a
fresh manager. -/
def c8ent : EntityObj :=
  match create initState wCls [("id", .num 1), ("w", .num 2)] with
  | .ok (.ent e) _ => e
  | _ => freshEnt initState wCls

/-- Manager state after one getReference call for id 7 on a fresh manager. -/
def st9 : OMState := (getReference initState uCls (.num 7)).2

/-- The proxy returned by that getReference call. -/
def t9 : Tracked := (getReference initState uCls (.num 7)).1

/-- Manager state after a getReference for id 7 followed by a resolving
construct for id 7. -/
def s5a : OMState :=
  run initState [.getRef uCls (.num 7), .construct uCls [("id", .num 7), ("name", .num 1)]]

/-- The previous state after one further construct call for id 7 with new
data. -/
def s5b : OMState := stepOp s5a (.construct uCls [("id", .num 7), ("name", .num 2)])

/-- Manager state after one getReference call with an undefined id on a fresh
manager: it tracks one proxy whose id is undefined. -/
def stU : OMState := (getReference initState uCls .undefined).2

/-- The proxy tracked for the pair (User, 7) in `s5a`, with a fallback value
on the unreachable branches. -/
def p5 : ProxyObj :=
  match getFromObjectMap s5a.objectMap uCls (.num 7) with
  | some (.prox p) => p
  | _ => newProxy uCls (.num 7) 0

/-- The entity freshly built by the second construct call of the `s5b`
scenario, with a fallback value on the unreachable branch. -/
def e5 : EntityObj :=
  (buildProps (freshEnt s5a uCls) uCls.schema [("id", .num 7), ("name", .num 2)]).val

/-- An entity with the property set built from concrete raw data for `uCls`
on a fresh manager. -/
def c7ent : EntityObj :=
  (buildProps (freshEnt initState uCls) uCls.schema [("id", .num 7), ("name", .num 5)]).val

/-! Association list lemmas. -/

theorem lookupA_setA {α : Type} (l : List (String × α)) (n m : String) (v : α) :
    lookupA (setA l n v) m = if n = m then some v else lookupA l m := by
  induction l with
  | nil => by_cases h : n = m <;> simp [setA, lookupA, h]
  | cons ka r ih =>
    obtain ⟨k, a⟩ := ka
    by_cases hkn : k = n
    · subst hkn
      by_cases hkm : k = m <;> simp [setA, lookupA, hkm]
    · by_cases hkm : k = m
      · subst hkm
        have hnm : ¬ n = k := fun h => hkn h.symm
        simp [setA, lookupA, hkn, hnm]
      · simp [setA, lookupA, hkn, hkm, ih]

theorem lookupA_setA_self {α : Type} (l : List (String × α)) (n : String) (v : α) :
    lookupA (setA l n v) n = some v := by
  simp [lookupA_setA]

theorem lookupA_setA_ne {α : Type} (l : List (String × α)) {n m : String} (v : α)
    (h : n ≠ m) : lookupA (setA l n v) m = lookupA l m := by
  simp [lookupA_setA, h]

theorem lookupA_of_nodup_mem {α : Type} {l : List (String × α)} {n : String} {a : α}
    (hnd : (l.map Prod.fst).Nodup) (hm : (n, a) ∈ l) : lookupA l n = some a := by
  induction l with
  | nil => simp at hm
  | cons kb r ih =>
    obtain ⟨k, b⟩ := kb
    simp only [List.map_cons, List.nodup_cons] at hnd
    rcases List.mem_cons.mp hm with h | h
    · rw [Prod.mk.injEq] at h
      simp [lookupA, h.1.symm, h.2.symm]
    · have hkn : k ≠ n := by
        intro hkn
        exact hnd.1 (List.mem_map.mpr ⟨(n, a), h, by simp [hkn]⟩)
      simp [lookupA, hkn, ih hnd.2 h]

theorem mem_of_lookupA {α : Type} {l : List (String × α)} {n : String} {a : α}
    (h : lookupA l n = some a) : (n, a) ∈ l := by
  induction l with
  | nil => simp [lookupA] at h
  | cons kb r ih =>
    obtain ⟨k, b⟩ := kb
    by_cases hk : k = n
    · subst hk
      simp [lookupA] at h
      simp [h]
    · simp [lookupA, hk] at h
      exact List.mem_cons_of_mem _ (ih h)

theorem getB_setA (m : ObjMap) (n : String) (b : List Tracked) (n2 : String) :
    getB (setA m n b) n2 = if n = n2 then b else getB m n2 := by
  by_cases h : n = n2 <;> simp [getB, lookupA_setA, h]

/-! Step lemmas for the property loops. -/

theorem buildProps_cons_noTransform {k : String} {p : Property}
    {rest : List (String × Property)} {e : EntityObj} {data : Record}
    (h : p.transform = none) :
    buildProps e ((k, p) :: rest) data = .thrown .transformMandatory e := by
  simp [buildProps, definePropertyStep, h]

theorem buildProps_cons_throw {k : String} {p : Property} {rest : List (String × Property)}
    {e : EntityObj} {data : Record} {f : Value → Option Value}
    (hf : p.transform = some f) (h : f (getKV data k) = none) :
    buildProps e ((k, p) :: rest) data
      = .thrown .transformThrew { e with raw := setA e.raw k (getKV data k) } := by
  simp [buildProps, definePropertyStep, loadPropertyValue, hf, h]

theorem buildProps_cons_step {k : String} {p : Property} {rest : List (String × Property)}
    {e : EntityObj} {data : Record} {f : Value → Option Value} {v : Value}
    (hf : p.transform = some f) (h : f (getKV data k) = some v) :
    buildProps e ((k, p) :: rest) data
      = buildProps
          { e with raw := setA e.raw k (getKV data k), values := setA e.values k v }
          rest data := by
  simp [buildProps, definePropertyStep, loadPropertyValue, hf, h]

theorem updateProps_cons_noTransform {k : String} {p : Property}
    {rest : List (String × Property)} {e : EntityObj} {data : Record}
    (h : p.transform = none) :
    updateProps e ((k, p) :: rest) data
      = .thrown .typeError { e with raw := setA e.raw k (getKV data k) } := by
  simp [updateProps, loadPropertyValue, h]

theorem updateProps_cons_throw {k : String} {p : Property} {rest : List (String × Property)}
    {e : EntityObj} {data : Record} {f : Value → Option Value}
    (hf : p.transform = some f) (h : f (getKV data k) = none) :
    updateProps e ((k, p) :: rest) data
      = .thrown .transformThrew { e with raw := setA e.raw k (getKV data k) } := by
  simp [updateProps, loadPropertyValue, hf, h]

theorem updateProps_cons_step {k : String} {p : Property} {rest : List (String × Property)}
    {e : EntityObj} {data : Record} {f : Value → Option Value} {v : Value}
    (hf : p.transform = some f) (h : f (getKV data k) = some v) :
    updateProps e ((k, p) :: rest) data
      = updateProps
          { e with raw := setA e.raw k (getKV data k), values := setA e.values k v }
          rest data := by
  simp [updateProps, loadPropertyValue, hf, h]

theorem buildProps_cons_inv {k : String} {p : Property} {rest : List (String × Property)}
    {e e2 : EntityObj} {data : Record}
    (h : buildProps e ((k, p) :: rest) data = .ok e2) :
    ∃ f v, p.transform = some f ∧ f (getKV data k) = some v ∧
      buildProps
        { e with raw := setA e.raw k (getKV data k), values := setA e.values k v }
        rest data = .ok e2 := by
  cases hpt : p.transform with
  | none => rw [buildProps_cons_noTransform hpt] at h; exact absurd h (by simp)
  | some f =>
    cases hfv : f (getKV data k) with
    | none => rw [buildProps_cons_throw hpt hfv] at h; exact absurd h (by simp)
    | some v =>
      rw [buildProps_cons_step hpt hfv] at h
      exact ⟨f, v, rfl, hfv, h⟩

/-! Field invariance and value lemmas for the property loops. -/

theorem buildProps_const {s : List (String × Property)} {e e2 : EntityObj} {data : Record}
    (h : buildProps e s data = .ok e2) :
    e2.tag = e.tag ∧ e2.schema = e.schema ∧ e2.dirty = e.dirty ∧
    e2.hookRuns = e.hookRuns ∧ e2.extra = e.extra := by
  induction s generalizing e with
  | nil =>
    simp only [buildProps, ERes.ok.injEq] at h
    subst h
    exact ⟨rfl, rfl, rfl, rfl, rfl⟩
  | cons np rest ih =>
    obtain ⟨k, p⟩ := np
    obtain ⟨f, v, hf, hv, h2⟩ := buildProps_cons_inv h
    have hc := ih h2
    exact hc

theorem updateProps_const (s : List (String × Property)) (e : EntityObj) (data : Record) :
    (updateProps e s data).val.tag = e.tag ∧ (updateProps e s data).val.schema = e.schema := by
  induction s generalizing e with
  | nil => exact ⟨rfl, rfl⟩
  | cons np rest ih =>
    obtain ⟨k, p⟩ := np
    cases hpt : p.transform with
    | none => rw [updateProps_cons_noTransform hpt]; exact ⟨rfl, rfl⟩
    | some f =>
      cases hfv : f (getKV data k) with
      | none => rw [updateProps_cons_throw hpt hfv]; exact ⟨rfl, rfl⟩
      | some v => rw [updateProps_cons_step hpt hfv]; exact ih _

theorem buildProps_values_not_mem {s : List (String × Property)} {e e2 : EntityObj}
    {data : Record} {n : String} (hn : n ∉ s.map Prod.fst)
    (h : buildProps e s data = .ok e2) :
    lookupA e2.values n = lookupA e.values n := by
  induction s generalizing e with
  | nil =>
    simp only [buildProps, ERes.ok.injEq] at h
    subst h
    rfl
  | cons np rest ih =>
    obtain ⟨k, p⟩ := np
    simp only [List.map_cons, List.mem_cons] at hn
    push_neg at hn
    obtain ⟨f, v, hf, hv, h2⟩ := buildProps_cons_inv h
    rw [ih hn.2 h2]
    exact lookupA_setA_ne _ _ (fun hkn => hn.1 hkn.symm)

theorem buildProps_values_mem {s : List (String × Property)} {e e2 : EntityObj}
    {data : Record} {n : String} {p : Property}
    (hnd : (s.map Prod.fst).Nodup) (hp : lookupA s n = some p)
    (h : buildProps e s data = .ok e2) :
    ∃ f v, p.transform = some f ∧ f (getKV data n) = some v ∧
      lookupA e2.values n = some v := by
  induction s generalizing e with
  | nil => simp [lookupA] at hp
  | cons np rest ih =>
    obtain ⟨k, q⟩ := np
    simp only [List.map_cons, List.nodup_cons] at hnd
    obtain ⟨f, v, hf, hv, h2⟩ := buildProps_cons_inv h
    by_cases hkn : k = n
    · subst hkn
      simp only [lookupA, if_true, eq_self_iff_true, Option.some.injEq] at hp
      subst hp
      refine ⟨f, v, hf, hv, ?_⟩
      rw [buildProps_values_not_mem hnd.1 h2]
      exact lookupA_setA_self _ _ _
    · have hlp : lookupA rest n = some p := by simpa [lookupA, hkn] using hp
      exact ih hnd.2 hlp h2

theorem buildProps_ok_of_transformsOk {s : List (String × Property)} {data : Record}
    (hok : transformsOk s data) (e : EntityObj) :
    ∃ e2, buildProps e s data = .ok e2 := by
  induction s generalizing e with
  | nil => exact ⟨e, rfl⟩
  | cons np rest ih =>
    obtain ⟨k, p⟩ := np
    obtain ⟨f, v, hf, hv⟩ := hok (k, p) (List.mem_cons_self _ _)
    rw [buildProps_cons_step hf hv]
    exact ih (fun np2 h2 => hok np2 (List.mem_cons_of_mem _ h2)) _

theorem updateProps_ok_of_buildProps_ok {s : List (String × Property)} {data : Record}
    {e e2 : EntityObj} (h : buildProps e s data = .ok e2) (ex : EntityObj) :
    ∃ ex2, updateProps ex s data = .ok ex2 := by
  induction s generalizing e ex with
  | nil => exact ⟨ex, rfl⟩
  | cons np rest ih =>
    obtain ⟨k, p⟩ := np
    obtain ⟨f, v, hf, hv, h2⟩ := buildProps_cons_inv h
    rw [updateProps_cons_step hf hv]
    exact ih h2 _

theorem updateProps_values_not_mem {s : List (String × Property)} {data : Record}
    {n : String} (hn : n ∉ s.map Prod.fst) (e : EntityObj) :
    lookupA (updateProps e s data).val.values n = lookupA e.values n := by
  induction s generalizing e with
  | nil => rfl
  | cons np rest ih =>
    obtain ⟨k, p⟩ := np
    simp only [List.map_cons, List.mem_cons] at hn
    push_neg at hn
    have hkn : k ≠ n := fun h => hn.1 h.symm
    cases hpt : p.transform with
    | none => rw [updateProps_cons_noTransform hpt]; rfl
    | some f =>
      cases hfv : f (getKV data k) with
      | none => rw [updateProps_cons_throw hpt hfv]; rfl
      | some v =>
        rw [updateProps_cons_step hpt hfv, ih hn.2]
        exact lookupA_setA_ne _ _ hkn

theorem updateProps_id_stable {s : List (String × Property)} {data : Record} {p : Property}
    (hnd : (s.map Prod.fst).Nodup) (hp : lookupA s "id" = some p)
    (hpt : p.transform = some (fun v => some v)) (e : EntityObj) :
    lookupA (updateProps e s data).val.values "id" = lookupA e.values "id" ∨
    lookupA (updateProps e s data).val.values "id" = some (getKV data "id") := by
  induction s generalizing e with
  | nil => exact Or.inl rfl
  | cons np rest ih =>
    obtain ⟨k, q⟩ := np
    simp only [List.map_cons, List.nodup_cons] at hnd
    by_cases hk : k = "id"
    · subst hk
      simp only [lookupA, if_true, eq_self_iff_true, Option.some.injEq] at hp
      subst hp
      rw [updateProps_cons_step hpt rfl]
      right
      rw [updateProps_values_not_mem hnd.1]
      exact lookupA_setA_self _ _ _
    · have hlp : lookupA rest "id" = some p := by simpa [lookupA, hk] using hp
      cases hqt : q.transform with
      | none => rw [updateProps_cons_noTransform hqt]; exact Or.inl rfl
      | some f =>
        cases hfv : f (getKV data k) with
        | none => rw [updateProps_cons_throw hqt hfv]; exact Or.inl rfl
        | some v =>
          rw [updateProps_cons_step hqt hfv]
          rcases ih hnd.2 hlp _ with h | h
          · left
            rw [h]
            exact lookupA_setA_ne _ _ hk
          · right
            exact h

/-! Lemmas for the toArray loop. -/

theorem toArrayAux_skip {e : EntityObj} {s : List (String × Property)} {n : String}
    (hn : n ∉ s.map Prod.fst) (acc : Record) :
    lookupA (toArrayAux e s acc) n = lookupA acc n := by
  induction s generalizing acc with
  | nil => rfl
  | cons np rest ih =>
    obtain ⟨k, p⟩ := np
    simp only [List.map_cons, List.mem_cons] at hn
    push_neg at hn
    have hkn : k ≠ n := fun h => hn.1 h.symm
    by_cases hpers : p.persistable = true
    · simp only [toArrayAux, hpers, if_true]
      rw [ih hn.2]
      exact lookupA_setA_ne _ _ hkn
    · simp only [toArrayAux]
      rw [if_neg hpers]
      exact ih hn.2 _

theorem toArrayAux_not_persistable {e : EntityObj} {s : List (String × Property)}
    {n : String} (h : ∀ q : Property, (n, q) ∈ s → q.persistable = false) (acc : Record) :
    lookupA (toArrayAux e s acc) n = lookupA acc n := by
  induction s generalizing acc with
  | nil => rfl
  | cons np rest ih =>
    obtain ⟨k, p⟩ := np
    have hrest : ∀ q : Property, (n, q) ∈ rest → q.persistable = false :=
      fun q hq => h q (List.mem_cons_of_mem _ hq)
    by_cases hpers : p.persistable = true
    · have hkn : k ≠ n := by
        intro hk
        subst hk
        rw [h p (List.mem_cons_self _ _)] at hpers
        exact Bool.false_ne_true hpers
      simp only [toArrayAux, hpers, if_true]
      rw [ih hrest]
      exact lookupA_setA_ne _ _ hkn
    · simp only [toArrayAux]
      rw [if_neg hpers]
      exact ih hrest _

theorem toArrayAux_written {e : EntityObj} {s : List (String × Property)} {n : String}
    {p : Property} (hnd : (s.map Prod.fst).Nodup) (hp : lookupA s n = some p)
    (hpers : p.persistable = true) (acc : Record) :
    lookupA (toArrayAux e s acc) n = some (p.reverseTransform (entityRead e n)) := by
  induction s generalizing acc with
  | nil => simp [lookupA] at hp
  | cons np rest ih =>
    obtain ⟨k, q⟩ := np
    simp only [List.map_cons, List.nodup_cons] at hnd
    by_cases hkn : k = n
    · subst hkn
      simp only [lookupA, if_true, eq_self_iff_true, Option.some.injEq] at hp
      subst hp
      simp only [toArrayAux, hpers, if_true]
      rw [toArrayAux_skip hnd.1]
      exact lookupA_setA_self _ _ _
    · have hlp : lookupA rest n = some p := by simpa [lookupA, hkn] using hp
      by_cases hqp : q.persistable = true
      · simp only [toArrayAux, hqp, if_true]
        exact ih hnd.2 hlp _
      · simp only [toArrayAux]
        rw [if_neg hqp]
        exact ih hnd.2 hlp _

/-! Loose equality facts. -/

theorem looseEq_num_iff {a : Value} {k : Int} : looseEq a (.num k) = true ↔ a = .num k := by
  cases a <;> simp [looseEq]

/-- Claim C3 (code bug): no construct call ever executes the post-construction
hook.  A fresh construct returns an entity whose hook-run count is zero, and a
construct that resolves a previously obtained proxy returns that same proxy
(same allocation tag) with its hook-run count still at the single execution
performed by the proxy constructor itself, not incremented by the construct
call.  The spec requires the hook to run exactly once per construct call; the
code invokes `entityClass.constructor.call`, which resolves to the built-in
Function constructor and never runs the hook (see the file header). -/
theorem C3_hook_never_invoked_by_create :
    (create initState uCls [("id", .num 1)]).retHookRuns = some 0 ∧
    t9.hookRuns = 1 ∧
    (create st9 uCls [("id", .num 7), ("name", .num 4)]).retHookRuns = some 1 ∧
    (create st9 uCls [("id", .num 7), ("name", .num 4)]).retTag = some t9.tag :=
  ⟨rfl, rfl, rfl, rfl⟩

/-- Claim C6: on a freshly created, unresolved proxy (delegate unset), reading
or writing any non-id schema property throws the NotLoadable error (Entity
cannot be loaded), and the write leaves the proxy unchanged, while reading id
succeeds with the id captured at construction. -/
theorem C6_unresolved_proxy_access (cls : EntityClass) (id : Value) (tg : Nat)
    (n : String) (p : Property) (v : Value)
    (hmem : lookupA cls.schema n = some p) (hid : n ≠ "id") :
    proxyRead (newProxy cls id tg) n = .error .notLoadable ∧
    proxyWrite (newProxy cls id tg) n v = .thrown .notLoadable (newProxy cls id tg) ∧
    proxyRead (newProxy cls id tg) "id" = .ok id := by
  refine ⟨?_, ?_, ?_⟩
  · simp [proxyRead, newProxy, hid, hmem]
  · simp [proxyWrite, newProxy, hid, hmem]
  · simp [proxyRead, newProxy]

/-- Witness for C6 at a concrete class, id and property. -/
theorem C6_witness :
    proxyRead (newProxy uCls (.num 7) 0) "name" = .error .notLoadable ∧
    proxyWrite (newProxy uCls (.num 7) 0) "name" (.num 3)
      = .thrown .notLoadable (newProxy uCls (.num 7) 0) ∧
    proxyRead (newProxy uCls (.num 7) 0) "id" = .ok (.num 7) :=
  C6_unresolved_proxy_access uCls (.num 7) 0 "name" pName (.num 3) rfl (by decide)

/-- Claim C9 counterexample: after a getReference call with an undefined id, a
tracked object with undefined id exists in the identity map, yet get with
undefined id throws NotLoaded instead of returning it, so get does not return
the tracked object although one exists for that id. -/
theorem C9_counterexample :
    (getB stU.objectMap "User").countP (fun t => t.objId == Value.undefined) = 1 ∧
    (get stU uCls .undefined).errOf = some .notLoaded :=
  ⟨rfl, rfl⟩

/-- Claim C9 amended: get returns the object found by the identity-map lookup
and leaves the state untouched, and throws NotLoaded exactly when the lookup
misses; the lookup treats an undefined id as always missing, so a tracked
object with undefined id is never returned. -/
theorem C9_get_lookup_behavior (st : OMState) (cls : EntityClass) (id : Value) :
    (∀ t, getFromObjectMap st.objectMap cls id = some t → get st cls id = .ok t st) ∧
    (getFromObjectMap st.objectMap cls id = none → get st cls id = .thrown .notLoaded st) ∧
    getFromObjectMap st.objectMap cls .undefined = none := by
  refine ⟨?_, ?_, ?_⟩
  · intro t h
    simp [get, h]
  · intro h
    simp [get, h]
  · simp [getFromObjectMap]

/-- Witness for C9 at a concrete state holding a tracked object for id 7. -/
theorem C9_witness : get st9 uCls (.num 7) = .ok t9 st9 :=
  (C9_get_lookup_behavior st9 uCls (.num 7)).1 t9 rfl

/-- Claim C10: an undefined id always misses the identity map: get with an
undefined id throws NotLoaded in every state, including states tracking an
object with undefined id; and getReference with an undefined id creates and
registers a fresh proxy, appending it to the bucket, so the number of tracked
objects with undefined id grows by one on every call. -/
theorem C10_undefined_id_always_misses (st : OMState) (cls : EntityClass)
    (hfresh : ∀ t ∈ getB st.objectMap cls.name, t.tag < st.nextTag) :
    get st cls .undefined = .thrown .notLoaded st ∧
    (getReference st cls .undefined).1 = .prox (newProxy cls .undefined st.nextTag) ∧
    getB (getReference st cls .undefined).2.objectMap cls.name
      = getB st.objectMap cls.name ++ [.prox (newProxy cls .undefined st.nextTag)] ∧
    (getB (getReference st cls .undefined).2.objectMap cls.name).countP
        (fun t => t.objId == Value.undefined)
      = (getB st.objectMap cls.name).countP (fun t => t.objId == Value.undefined) + 1 := by
  have hmiss : getFromObjectMap st.objectMap cls .undefined = none := by
    simp [getFromObjectMap]
  have hadd : ¬ ((getB st.objectMap cls.name).any
      (fun x => x.tag == (Tracked.prox (newProxy cls .undefined st.nextTag)).tag)) = true := by
    rw [List.any_eq_true]
    rintro ⟨x, hx, hxt⟩
    have hlt := hfresh x hx
    simp only [beq_iff_eq] at hxt
    have hxe : x.tag = st.nextTag := hxt
    omega
  have hbucket : getB (getReference st cls .undefined).2.objectMap cls.name
      = getB st.objectMap cls.name ++ [.prox (newProxy cls .undefined st.nextTag)] := by
    simp only [getReference, hmiss, createProxy, addToObjectMap]
    rw [if_neg hadd, getB_setA, if_pos rfl]
  refine ⟨?_, ?_, hbucket, ?_⟩
  · simp [get, hmiss]
  · simp [getReference, hmiss, createProxy]
  · rw [hbucket, List.countP_append]
    simp [Tracked.objId, newProxy]

/-- Witness for C10 at a state already tracking a proxy with undefined id. -/
theorem C10_witness :
    get stU uCls .undefined = .thrown .notLoaded stU ∧
    (getReference stU uCls .undefined).1 = .prox (newProxy uCls .undefined stU.nextTag) ∧
    getB (getReference stU uCls .undefined).2.objectMap uCls.name
      = getB stU.objectMap uCls.name ++ [.prox (newProxy uCls .undefined stU.nextTag)] ∧
    (getB (getReference stU uCls .undefined).2.objectMap uCls.name).countP
        (fun t => t.objId == Value.undefined)
      = (getB stU.objectMap uCls.name).countP (fun t => t.objId == Value.undefined) + 1 :=
  C10_undefined_id_always_misses stU uCls (by
    intro t ht
    have hb : getB stU.objectMap uCls.name = [.prox (newProxy uCls .undefined 0)] := rfl
    rw [hb, List.mem_singleton] at ht
    subst ht
    decide)

/-- Claim C8 counterexample: for a writable, readable but non-persistable
schema property, the write succeeds, sets the dirty flag and stores the
transformed value, yet the immediately following toArray output contains no
key for that property at all, so it does not reflect the new value for it. -/
theorem C8_counterexample :
    (entityWrite c8ent "w" (.num 9)).threw = false ∧
    (entityWrite c8ent "w" (.num 9)).val.dirty = true ∧
    getKV (entityWrite c8ent "w" (.num 9)).val.values "w" = .num 9 ∧
    hasKey (toArray (entityWrite c8ent "w" (.num 9)).val) "w" = false :=
  ⟨rfl, rfl, rfl, rfl⟩

/-- Claim C8 amended: writing a value to a writable schema property whose
transform succeeds sets the dirty flag and stores the transformed value; the
immediately following toArray output maps the property to the reverse
transform of that new value when the property is persistable and readable,
and omits the key entirely when the property is not persistable. -/
theorem C8_dirty_tracking (e : EntityObj) (n : String) (p : Property) (v w : Value)
    (f : Value → Option Value)
    (hnd : (e.schema.map Prod.fst).Nodup)
    (hp : lookupA e.schema n = some p) (hw : p.writable = true)
    (hf : p.transform = some f) (hfv : f v = some w) :
    entityWrite e n v = .ok { e with dirty := true, values := setA e.values n w } ∧
    (p.persistable = true → p.readable = true →
      lookupA (toArray { e with dirty := true, values := setA e.values n w }) n
        = some (p.reverseTransform w)) ∧
    (p.persistable = false →
      hasKey (toArray { e with dirty := true, values := setA e.values n w }) n = false) := by
  refine ⟨?_, ?_, ?_⟩
  · simp [entityWrite, hp, hw, hf, hfv]
  · intro hpers hread
    have hr : entityRead { e with dirty := true, values := setA e.values n w } n = w := by
      simp [entityRead, hp, hread, getKV, lookupA_setA_self]
    rw [show toArray { e with dirty := true, values := setA e.values n w }
        = toArrayAux { e with dirty := true, values := setA e.values n w } e.schema []
      from rfl]
    rw [toArrayAux_written hnd hp hpers, hr]
  · intro hpers
    have hall : ∀ q : Property, (n, q) ∈ e.schema → q.persistable = false := by
      intro q hq
      have := lookupA_of_nodup_mem hnd hq
      rw [hp] at this
      cases this
      exact hpers
    rw [show toArray { e with dirty := true, values := setA e.values n w }
        = toArrayAux { e with dirty := true, values := setA e.values n w } e.schema []
      from rfl]
    rw [hasKey, toArrayAux_not_persistable hall]
    rfl

/-- Witness for C8 at a concrete entity and writable non-persistable
property. -/
theorem C8_witness :
    entityWrite c8ent "w" (.num 9)
      = .ok { c8ent with dirty := true, values := setA c8ent.values "w" (.num 9) } ∧
    hasKey (toArray { c8ent with dirty := true, values := setA c8ent.values "w" (.num 9) }) "w"
      = false :=
  have h := C8_dirty_tracking c8ent "w" pW (.num 9) (.num 9) (fun v => some v)
    (by decide) rfl rfl rfl rfl
  ⟨h.1, h.2.2 rfl⟩

/-- Claim C4 counterexample: a direct update whose last property transform
throws leaves the earlier properties of the pre-existing tracked entity
already overwritten: the raw/values state is not left unchanged. -/
theorem C4_counterexample :
    getKV c4ent.values "a" = .num 1 ∧
    (update c4ent [("id", .num 3), ("a", .num 5)]).threw = true ∧
    getKV (update c4ent [("id", .num 3), ("a", .num 5)]).val.values "a" = .num 5 :=
  ⟨rfl, rfl, rfl⟩

/-- Claim C5 counterexample: after a getReference for id 7 and a resolving
construct, the tracked proxy (tag 0) has delegate tag 1; one further construct
call for the same id leaves the same proxy tracked but replaces its delegate
with the freshly built entity (tag 2), so the delegate is not set at most
once. -/
theorem C5_counterexample :
    (getFromObjectMap s5a.objectMap uCls (.num 7)).map Tracked.tag = some 0 ∧
    (getFromObjectMap s5a.objectMap uCls (.num 7)).bind Tracked.delegateTag = some 1 ∧
    (getFromObjectMap s5b.objectMap uCls (.num 7)).map Tracked.tag = some 0 ∧
    (getFromObjectMap s5b.objectMap uCls (.num 7)).bind Tracked.delegateTag = some 2 :=
  ⟨rfl, rfl, rfl, rfl⟩

/-- Claim C1 counterexample: two getReference calls with an undefined id leave
two tracked objects for the pair (User, undefined); and with an id property
whose transform is not the identity, two construct calls with the same raw id
leave two tracked entities for the pair (Shift, 9). -/
theorem C1_counterexample :
    countPair (run initState [.getRef uCls .undefined, .getRef uCls .undefined]) "User" .undefined = 2 ∧
    countPair (run initState
        [.construct shiftCls [("id", .num 1)], .construct shiftCls [("id", .num 1)]])
      "Shift" (.num 9) = 2 :=
  ⟨rfl, rfl⟩

theorem ne_undef_of_getFromObjectMap {m : ObjMap} {cls : EntityClass} {id : Value}
    {t : Tracked} (h : getFromObjectMap m cls id = some t) : id ≠ .undefined := by
  intro he
  subst he
  simp [getFromObjectMap] at h

theorem looseEq_num_congr {a b : Value} (hab : looseEq a b = true) (hb : b ≠ .undefined)
    (k : Int) : looseEq b (.num k) = looseEq a (.num k) := by
  cases a <;> cases b <;> simp_all [looseEq]

theorem mem_of_getFromObjectMap {m : ObjMap} {cls : EntityClass} {id : Value} {t : Tracked}
    (h : getFromObjectMap m cls id = some t) : t ∈ getB m cls.name := by
  unfold getFromObjectMap at h
  split at h
  · cases h
  · exact List.mem_of_find?_eq_some h

theorem looseEq_of_getFromObjectMap {m : ObjMap} {cls : EntityClass} {id : Value}
    {t : Tracked} (h : getFromObjectMap m cls id = some t) : looseEq t.objId id = true := by
  unfold getFromObjectMap at h
  split at h
  · cases h
  · have h2 := List.find?_some h
    exact h2

theorem find?_none_of_getFromObjectMap {m : ObjMap} {cls : EntityClass} {id : Value}
    (hne : id ≠ .undefined) (h : getFromObjectMap m cls id = none) :
    (getB m cls.name).find? (fun t => looseEq t.objId id) = none := by
  unfold getFromObjectMap at h
  rw [if_neg hne] at h
  exact h

/-- Claim C4 amended: construct is atomic: when construct throws, the object
map (hence the raw/values state of every pre-existing tracked entity) is
exactly as it was before the call, provided the tracked entities of the class
bucket carry the schema the class declares, and no reference is returned.  A
direct update that fails partway, in contrast, keeps the property loads
already performed before the failure (see the counterexample). -/
theorem C4_construct_atomic (st : OMState) (cls : EntityClass) (data : Record)
    (err : Err) (st2 : OMState)
    (hsch : ∀ e : EntityObj, Tracked.ent e ∈ getB st.objectMap cls.name →
      e.schema = cls.schema)
    (h : create st cls data = .thrown err st2) :
    st2.objectMap = st.objectMap := by
  cases hb : buildProps (freshEnt st cls) cls.schema data with
  | thrown err2 e2 =>
    simp only [create, hb] at h
    cases h
    rfl
  | ok e =>
    cases hg : getFromObjectMap st.objectMap cls (getKV data "id") with
    | none => simp [create, hb, hg] at h
    | some t =>
      cases t with
      | prox p => simp [create, hb, hg] at h
      | ent ex =>
        have hmem := mem_of_getFromObjectMap hg
        have hex : ex.schema = cls.schema := hsch ex hmem
        obtain ⟨ex2, hup⟩ := updateProps_ok_of_buildProps_ok hb ex
        have hupd : update ex data = .ok ex2 := by
          rw [update, hex]
          exact hup
        simp [create, hb, hg, hupd] at h

/-- Witness for C4: a construct call that throws because a property lacks a
transform leaves the object map of a fresh manager unchanged. -/
theorem C4_witness :
    ({ objectMap := [], nextTag := 1 } : OMState).objectMap = initState.objectMap :=
  C4_construct_atomic initState badCls [("id", .num 1), ("a", .num 2)]
    .transformMandatory { objectMap := [], nextTag := 1 }
    (by intro e he; simp [initState, getB, lookupA] at he) rfl

/-- Claim C5 amended: a proxy starts with its delegate unset, and every
construct call whose data id finds that proxy in the identity map assigns the
freshly built entity to its delegate and returns the proxy: the first such
call resolves the proxy, and every later construct call for the same id
replaces the delegate again with the newly built entity. -/
theorem C5_delegate_overwritten (st : OMState) (cls : EntityClass) (data : Record)
    (p : ProxyObj) (e : EntityObj) (id : Value) (tg : Nat)
    (hfind : getFromObjectMap st.objectMap cls (getKV data "id") = some (.prox p))
    (hbuild : buildProps (freshEnt st cls) cls.schema data = .ok e) :
    (newProxy cls id tg).object = none ∧
    ∃ st2, create st cls data = .ok (.prox { p with object := some e }) st2 := by
  refine ⟨rfl, ⟨OMState.mk (setA st.objectMap cls.name (replaceInBucket (getB st.objectMap cls.name) p.tag (.prox { p with object := some e }))) (st.nextTag + 1), ?_⟩⟩
  simp only [create, hbuild, hfind]

/-- Witness for C5: the concrete second construct call of the counterexample
scenario replaces the delegate of the tracked proxy with the newly built
entity. -/
theorem C5_witness :
    (newProxy uCls (.num 7) 0).object = none ∧
    ∃ st2, create s5a uCls [("id", .num 7), ("name", .num 2)]
      = .ok (.prox { p5 with object := some e5 }) st2 :=
  C5_delegate_overwritten s5a uCls [("id", .num 7), ("name", .num 2)] p5 e5 (.num 7) 0 rfl rfl

/-- Claim C2 counterexample: with an undefined id, the proxy returned by
getReference (tag 0) is not the object returned by a subsequent construct
(tag 1); and for an id property with a non-identity transform, the resolved
proxy reads id as the captured 7 while the transform of the constructed raw
id is 15, so the read does not yield the transformed value. -/
theorem C2_counterexample :
    ((getReference initState uCls .undefined).1.tag = 0 ∧
      (create (getReference initState uCls .undefined).2 uCls []).retTag = some 1) ∧
    ((create ((getReference initState shiftCls (.num 7)).2) shiftCls
        [("id", .num 7)]).readRet "id" = some (.ok (.num 7)) ∧
      shiftT (.num 7) = some (.num 15)) :=
  ⟨⟨rfl, rfl⟩, ⟨rfl, rfl⟩⟩

/-- Claim C2 amended: for a defined id K, the proxy P returned by getReference
while nothing is tracked for (T, K) is returned again, with identical object
identity, by a subsequent construct whose data id is K and whose property
construction succeeds; afterwards every readable non-id schema property of P
reads as the transform of the constructed raw datum, while reading P.id still
returns the id captured at getReference time. -/
theorem C2_reference_stability (st : OMState) (cls : EntityClass) (k : Int) (data : Record)
    (hnd : (cls.schema.map Prod.fst).Nodup)
    (hfresh : ∀ t ∈ getB st.objectMap cls.name, t.tag < st.nextTag)
    (hmiss : getFromObjectMap st.objectMap cls (.num k) = none)
    (hid : getKV data "id" = .num k)
    (hok : transformsOk cls.schema data) :
    (getReference st cls (.num k)).1 = .prox (newProxy cls (.num k) st.nextTag) ∧
    ∃ e st2,
      create (getReference st cls (.num k)).2 cls data
        = .ok (.prox { newProxy cls (.num k) st.nextTag with object := some e }) st2 ∧
      (∀ n p f v, lookupA cls.schema n = some p → n ≠ "id" → p.readable = true →
        p.transform = some f → f (getKV data n) = some v →
        proxyRead { newProxy cls (.num k) st.nextTag with object := some e } n = .ok v) ∧
      proxyRead { newProxy cls (.num k) st.nextTag with object := some e } "id"
        = .ok (.num k) := by
  have hretst : (getReference st cls (.num k)).2
      = OMState.mk (addToObjectMap st.objectMap cls.name
          (.prox (newProxy cls (.num k) st.nextTag))) (st.nextTag + 1) := by
    simp only [getReference, hmiss, createProxy]
  have hadd : ¬ ((getB st.objectMap cls.name).any
      (fun x => x.tag == (Tracked.prox (newProxy cls (.num k) st.nextTag)).tag)) = true := by
    rw [List.any_eq_true]
    rintro ⟨x, hx, hxt⟩
    have hlt := hfresh x hx
    simp only [beq_iff_eq] at hxt
    have hxe : x.tag = st.nextTag := hxt
    omega
  have hbucket : getB (addToObjectMap st.objectMap cls.name
        (.prox (newProxy cls (.num k) st.nextTag))) cls.name
      = getB st.objectMap cls.name ++ [.prox (newProxy cls (.num k) st.nextTag)] := by
    simp only [addToObjectMap]
    rw [if_neg hadd, getB_setA, if_pos rfl]
  have hlookup : getFromObjectMap (addToObjectMap st.objectMap cls.name
        (.prox (newProxy cls (.num k) st.nextTag))) cls (getKV data "id")
      = some (.prox (newProxy cls (.num k) st.nextTag)) := by
    rw [hid]
    unfold getFromObjectMap
    rw [if_neg (by simp), hbucket, List.find?_append]
    rw [find?_none_of_getFromObjectMap (by simp) hmiss]
    simp [Tracked.objId, newProxy, looseEq]
  obtain ⟨e, hbuild⟩ := buildProps_ok_of_transformsOk hok
    (freshEnt (OMState.mk (addToObjectMap st.objectMap cls.name
      (.prox (newProxy cls (.num k) st.nextTag))) (st.nextTag + 1)) cls)
  have hsch : e.schema = cls.schema := (buildProps_const hbuild).2.1
  have hcreate : create (getReference st cls (.num k)).2 cls data
      = .ok (.prox { newProxy cls (.num k) st.nextTag with object := some e })
        (create (getReference st cls (.num k)).2 cls data).stOf := by
    rw [hretst]
    simp only [create, hbuild, hlookup, MRes.stOf]
  refine ⟨by simp only [getReference, hmiss, createProxy], e, _, hcreate, ?_, ?_⟩
  · intro n p f v hp hnid hread hf hfv
    have hread1 : proxyRead { newProxy cls (.num k) st.nextTag with object := some e } n
        = .ok (entityRead e n) := by
      simp [proxyRead, newProxy, hnid, hp]
    obtain ⟨f0, v0, hf0, hv0, hlv⟩ := buildProps_values_mem hnd hp hbuild
    rw [hf] at hf0
    cases hf0
    rw [hfv] at hv0
    cases hv0
    have hvv : entityRead e n = v := by
      simp only [entityRead, hsch, hp, hread, if_true, getKV, hlv, Option.getD_some]
    rw [hread1, hvv]
  · rfl

/-- Witness for C2 at a concrete class, id and data. -/
theorem C2_witness :
    (getReference initState uCls (.num 7)).1 = .prox (newProxy uCls (.num 7) 0) ∧
    ∃ e st2,
      create (getReference initState uCls (.num 7)).2 uCls [("id", .num 7), ("name", .num 5)]
        = .ok (.prox { newProxy uCls (.num 7) 0 with object := some e }) st2 ∧
      (∀ n p f v, lookupA uCls.schema n = some p → n ≠ "id" → p.readable = true →
        p.transform = some f → f (getKV [("id", .num 7), ("name", .num 5)] n) = some v →
        proxyRead { newProxy uCls (.num 7) 0 with object := some e } n = .ok v) ∧
      proxyRead { newProxy uCls (.num 7) 0 with object := some e } "id" = .ok (.num 7) :=
  C2_reference_stability initState uCls 7 [("id", .num 7), ("name", .num 5)]
    (by decide)
    (by intro t ht; simp [initState, getB, lookupA] at ht)
    rfl rfl
    (by
      intro np hnp
      simp only [uCls, List.mem_cons, List.not_mem_nil, or_false] at hnp
      rcases hnp with h | h
      · subst h
        exact ⟨fun v => some v, .num 7, rfl, rfl⟩
      · subst h
        exact ⟨fun v => some v, .num 5, rfl, rfl⟩)

/-- Claim C7: for an entity whose property set was successfully built from raw
data, under a schema whose persistable transforms round-trip with their
reverse transforms, toArray maps every persistable readable property name back
to the raw input value, and contains no key for a non-persistable property. -/
theorem C7_toArray_roundtrip (st : OMState) (cls : EntityClass) (data : Record)
    (e : EntityObj)
    (hnd : (cls.schema.map Prod.fst).Nodup)
    (hrt : ∀ np ∈ cls.schema, np.2.persistable = true →
      ∀ f x y, np.2.transform = some f → f x = some y → np.2.reverseTransform y = x)
    (hb : buildProps (freshEnt st cls) cls.schema data = .ok e) :
    (∀ n p, lookupA cls.schema n = some p → p.persistable = true → p.readable = true →
      lookupA (toArray e) n = some (getKV data n)) ∧
    (∀ n p, lookupA cls.schema n = some p → p.persistable = false →
      hasKey (toArray e) n = false) := by
  have hsch : e.schema = cls.schema := (buildProps_const hb).2.1
  constructor
  · intro n p hp hpers hread
    have hw : lookupA (toArray e) n = some (p.reverseTransform (entityRead e n)) := by
      rw [toArray, hsch]
      exact toArrayAux_written hnd hp hpers _
    obtain ⟨f, v, hf, hv, hlv⟩ := buildProps_values_mem hnd hp hb
    have hr : entityRead e n = v := by
      simp only [entityRead, hsch, hp, hread, if_true, getKV, hlv, Option.getD_some]
    rw [hw, hr, hrt (n, p) (mem_of_lookupA hp) hpers f (getKV data n) v hf hv]
  · intro n p hp hpers
    have hall : ∀ q : Property, (n, q) ∈ cls.schema → q.persistable = false := by
      intro q hq
      have h2 := lookupA_of_nodup_mem hnd hq
      rw [hp] at h2
      cases h2
      exact hpers
    rw [hasKey, toArray, hsch, toArrayAux_not_persistable hall]
    rfl

/-- Witness for C7 at a concrete class and raw data: the persistable readable
property name maps back to the raw value. -/
theorem C7_witness :
    lookupA (toArray c7ent) "name"
      = some (getKV [("id", .num 7), ("name", .num 5)] "name") :=
  (C7_toArray_roundtrip initState uCls [("id", .num 7), ("name", .num 5)] c7ent
    (by decide)
    (by
      intro np hnp hpers f x y hf hxy
      simp only [uCls, List.mem_cons, List.not_mem_nil, or_false] at hnp
      rcases hnp with h | h
      · subst h
        cases hf
        cases hxy
        rfl
      · subst h
        cases hf
        cases hxy
        rfl)
    rfl).1 "name" pName rfl rfl rfl

/-! Preservation of the reachable-state invariant. -/

theorem inv_initState : Inv initState := by
  intro name
  refine ⟨?_, ?_, ?_, ?_⟩ <;> simp [initState, getB, lookupA]

theorem inv_add_fresh (st : OMState) (name : String) (t : Tracked)
    (h : Inv st) (htag : t.tag = st.nextTag)
    (hcnt : ∀ k : Int, looseEq t.objId (.num k) = true →
      (getB st.objectMap name).countP (fun x => looseEq x.objId (.num k)) = 0)
    (hgood : ∀ e : EntityObj, t = .ent e → goodSchema e.schema) :
    Inv (OMState.mk (addToObjectMap st.objectMap name t) (st.nextTag + 1)) := by
  have hnotin : ¬ ((getB st.objectMap name).any (fun x => x.tag == t.tag)) = true := by
    rw [List.any_eq_true]
    rintro ⟨x, hx, hxt⟩
    have hlt := (h name).2.1 x hx
    simp only [beq_iff_eq] at hxt
    omega
  intro name2
  by_cases hne : name = name2
  · subst hne
    dsimp only
    have hb2 : getB (addToObjectMap st.objectMap name t) name
        = getB st.objectMap name ++ [t] := by
      simp only [addToObjectMap]
      rw [if_neg hnotin, getB_setA, if_pos rfl]
    rw [hb2]
    obtain ⟨h1, h2, h3, h4⟩ := h name
    refine ⟨?_, ?_, ?_, ?_⟩
    · rw [List.map_append, List.nodup_append]
      refine ⟨h1, List.nodup_singleton _, ?_⟩
      intro a ha hb
      rw [show List.map Tracked.tag [t] = [t.tag] from rfl, List.mem_singleton] at hb
      subst hb
      obtain ⟨x, hx, hxe⟩ := List.mem_map.mp ha
      have hlt := h2 x hx
      rw [hxe, htag] at hlt
      omega
    · intro x hx
      rw [List.mem_append, List.mem_singleton] at hx
      rcases hx with hx | hx
      · exact Nat.lt_succ_of_lt (h2 x hx)
      · subst hx
        rw [htag]
        exact Nat.lt_succ_self _
    · intro k
      rw [List.countP_append]
      by_cases hk : looseEq t.objId (.num k) = true
      · rw [hcnt k hk]
        simp [List.countP_cons, hk]
      · have hz : List.countP (fun x => looseEq x.objId (.num k)) [t] = 0 := by
          simp [List.countP_cons, hk]
        rw [hz]
        simpa using h3 k
    · intro e he
      rw [List.mem_append, List.mem_singleton] at he
      rcases he with he | he
      · exact h4 e he
      · exact hgood e he.symm
  · dsimp only
    have hb2 : getB (addToObjectMap st.objectMap name t) name2 = getB st.objectMap name2 := by
      simp only [addToObjectMap]
      split
      · rfl
      · rw [getB_setA, if_neg hne]
    rw [hb2]
    obtain ⟨h1, h2, h3, h4⟩ := h name2
    exact ⟨h1, fun x hx => Nat.lt_succ_of_lt (h2 x hx), h3, h4⟩

theorem inv_replace (st : OMState) (name : String) (t0 t2 : Tracked)
    (h : Inv st) (hmem : t0 ∈ getB st.objectMap name)
    (htag : t2.tag = t0.tag)
    (hsame : ∀ k : Int, looseEq t2.objId (.num k) = looseEq t0.objId (.num k))
    (hgood2 : ∀ e : EntityObj, t2 = .ent e → goodSchema e.schema) :
    Inv (OMState.mk (setA st.objectMap name
      (replaceInBucket (getB st.objectMap name) t0.tag t2)) (st.nextTag + 1)) := by
  intro name2
  by_cases hne : name = name2
  · subst hne
    dsimp only
    rw [getB_setA, if_pos rfl]
    obtain ⟨h1, h2, h3, h4⟩ := h name
    have hinj := List.inj_on_of_nodup_map h1
    refine ⟨?_, ?_, ?_, ?_⟩
    · have htagmap : (replaceInBucket (getB st.objectMap name) t0.tag t2).map Tracked.tag
          = (getB st.objectMap name).map Tracked.tag := by
        rw [replaceInBucket, List.map_map]
        apply List.map_congr_left
        intro x hx
        by_cases hxt : x.tag = t0.tag
        · simp [Function.comp, hxt, htag]
        · simp [Function.comp, hxt]
      rw [htagmap]
      exact h1
    · intro x hx
      rw [replaceInBucket] at hx
      obtain ⟨y, hy, hye⟩ := List.mem_map.mp hx
      by_cases hyt : y.tag = t0.tag
      · rw [if_pos hyt] at hye
        subst hye
        have hlt := h2 t0 hmem
        rw [htag]
        omega
      · rw [if_neg hyt] at hye
        subst hye
        exact Nat.lt_succ_of_lt (h2 y hy)
    · intro k
      rw [replaceInBucket, List.countP_map]
      have hc : (getB st.objectMap name).countP
          ((fun x => looseEq x.objId (.num k)) ∘ (fun x => if x.tag = t0.tag then t2 else x))
          = (getB st.objectMap name).countP (fun x => looseEq x.objId (.num k)) := by
        apply List.countP_congr
        intro x hx
        by_cases hxt : x.tag = t0.tag
        · have hxe : x = t0 := hinj hx hmem hxt
          subst hxe
          simp [Function.comp, hsame k]
        · simp [Function.comp, hxt]
      rw [hc]
      exact h3 k
    · intro e he
      rw [replaceInBucket] at he
      obtain ⟨y, hy, hye⟩ := List.mem_map.mp he
      by_cases hyt : y.tag = t0.tag
      · rw [if_pos hyt] at hye
        exact hgood2 e hye
      · rw [if_neg hyt] at hye
        subst hye
        exact h4 e hy
  · dsimp only
    rw [getB_setA, if_neg hne]
    obtain ⟨h1, h2, h3, h4⟩ := h name2
    exact ⟨h1, fun x hx => Nat.lt_succ_of_lt (h2 x hx), h3, h4⟩

theorem inv_getReference (st : OMState) (cls : EntityClass) (id : Value) (h : Inv st) :
    Inv (getReference st cls id).2 := by
  cases hg : getFromObjectMap st.objectMap cls id with
  | some r => simpa [getReference, hg] using h
  | none =>
    have hstep : (getReference st cls id).2
        = OMState.mk (addToObjectMap st.objectMap cls.name
            (.prox (newProxy cls id st.nextTag))) (st.nextTag + 1) := by
      simp only [getReference, hg, createProxy]
    rw [hstep]
    apply inv_add_fresh st cls.name (.prox (newProxy cls id st.nextTag)) h rfl
    · intro k hk
      have hid : id = .num k := looseEq_num_iff.mp hk
      subst hid
      have hfind := find?_none_of_getFromObjectMap (by simp) hg
      rw [List.countP_eq_zero]
      intro x hx
      have hnx := List.find?_eq_none.mp hfind x hx
      simpa using hnx
    · intro e he
      cases he

theorem inv_create (st : OMState) (cls : EntityClass) (data : Record)
    (h : Inv st) (hgc : goodSchema cls.schema) : Inv (create st cls data).stOf := by
  cases hb : buildProps (freshEnt st cls) cls.schema data with
  | thrown err e2 =>
    simp only [create, hb, MRes.stOf]
    intro name2
    obtain ⟨h1, h2, h3, h4⟩ := h name2
    exact ⟨h1, fun x hx => Nat.lt_succ_of_lt (h2 x hx), h3, h4⟩
  | ok e =>
    cases hgf : getFromObjectMap st.objectMap cls (getKV data "id") with
    | none =>
      simp only [create, hb, hgf, MRes.stOf]
      apply inv_add_fresh st cls.name (.ent e) h ((buildProps_const hb).1)
      · intro k hk
        have hgid : entityRead e "id" = getKV data "id" := by
          obtain ⟨hnd, pid, hpid, hpidr, hpidt⟩ := hgc
          obtain ⟨f0, v0, hf0, hv0, hlv⟩ := buildProps_values_mem hnd hpid hb
          rw [hpidt] at hf0
          cases hf0
          cases hv0
          have hsch : e.schema = cls.schema := (buildProps_const hb).2.1
          simp only [entityRead, hsch, hpid, hpidr, if_true, getKV, hlv, Option.getD_some]
        rw [show Tracked.objId (.ent e) = entityRead e "id" from rfl, hgid] at hk
        have hdk : getKV data "id" = .num k := looseEq_num_iff.mp hk
        rw [hdk] at hgf
        have hfind := find?_none_of_getFromObjectMap (by simp) hgf
        rw [List.countP_eq_zero]
        intro x hx
        have hnx := List.find?_eq_none.mp hfind x hx
        simpa using hnx
      · intro e2 he2
        cases he2
        rw [(buildProps_const hb).2.1]
        exact hgc
    | some t =>
      cases t with
      | prox p =>
        simp only [create, hb, hgf, MRes.stOf]
        apply inv_replace st cls.name (.prox p) (.prox { p with object := some e }) h
          (mem_of_getFromObjectMap hgf) rfl (fun k => rfl)
        intro e2 he2
        cases he2
      | ent ex =>
        have hmem := mem_of_getFromObjectMap hgf
        have hne := ne_undef_of_getFromObjectMap hgf
        have hloose := looseEq_of_getFromObjectMap hgf
        have hgex : goodSchema ex.schema := (h cls.name).2.2.2 ex hmem
        obtain ⟨hndx, pidx, hpidx, hpidxr, hpidxt⟩ := hgex
        have hupc := updateProps_const ex.schema ex data
        have hidst := @updateProps_id_stable ex.schema data pidx hndx hpidx hpidxt ex
        have hre : entityRead ex "id" = (lookupA ex.values "id").getD .undefined := by
          simp only [entityRead, hpidx, hpidxr, if_true, getKV]
        have hre2 : entityRead (updateProps ex ex.schema data).val "id"
            = (lookupA (updateProps ex ex.schema data).val.values "id").getD .undefined := by
          simp only [entityRead, hupc.2, hpidx, hpidxr, if_true, getKV]
        have hsame : ∀ k : Int,
            looseEq (Tracked.objId (.ent (updateProps ex ex.schema data).val)) (.num k)
              = looseEq (Tracked.objId (.ent ex)) (.num k) := by
          intro k
          rcases hidst with hl | hr
          · rw [show Tracked.objId (.ent (updateProps ex ex.schema data).val)
                = entityRead (updateProps ex ex.schema data).val "id" from rfl,
              show Tracked.objId (.ent ex) = entityRead ex "id" from rfl, hre2, hl, hre]
          · rw [show Tracked.objId (.ent (updateProps ex ex.schema data).val)
                = entityRead (updateProps ex ex.schema data).val "id" from rfl,
              show Tracked.objId (.ent ex) = entityRead ex "id" from rfl, hre2, hr]
            exact looseEq_num_congr hloose hne k
        have hgood2 : ∀ e2 : EntityObj,
            Tracked.ent (updateProps ex ex.schema data).val = .ent e2 →
              goodSchema e2.schema := by
          intro e2 he2
          cases he2
          rw [hupc.2]
          exact ⟨hndx, pidx, hpidx, hpidxr, hpidxt⟩
        have hrepl := inv_replace st cls.name (.ent ex)
          (.ent (updateProps ex ex.schema data).val) h hmem hupc.1 hsame hgood2
        cases hu : update ex data with
        | ok ex2 =>
          simp only [create, hb, hgf, hu, MRes.stOf]
          have hval : (updateProps ex ex.schema data).val = ex2 := by
            rw [show updateProps ex ex.schema data = update ex data from rfl, hu]
            rfl
          rw [hval] at hrepl
          exact hrepl
        | thrown err2 ex2 =>
          simp only [create, hb, hgf, hu, MRes.stOf]
          have hval : (updateProps ex ex.schema data).val = ex2 := by
            rw [show updateProps ex ex.schema data = update ex data from rfl, hu]
            rfl
          rw [hval] at hrepl
          exact hrepl

theorem inv_stepOp (st : OMState) (op : Op) (h : Inv st) (hg : goodOp op) :
    Inv (stepOp st op) := by
  cases op with
  | construct cls data => exact inv_create st cls data h hg
  | getRef cls id => exact inv_getReference st cls id h

theorem inv_run (st : OMState) (ops : List Op) (h : Inv st)
    (hg : ∀ op ∈ ops, goodOp op) : Inv (run st ops) := by
  induction ops generalizing st with
  | nil => exact h
  | cons op rest ih =>
    exact ih (stepOp st op) (inv_stepOp st op h (hg op (List.mem_cons_self _ _)))
      (fun o ho => hg o (List.mem_cons_of_mem _ ho))

/-- Claim C1 amended: starting from a fresh manager, after any finite sequence
of construct and getReference calls in which every construct call uses an
entity class with unique schema keys and a readable id property carrying the
identity transform, the identity map holds at most one tracked object per
class name and defined (numeric) id. -/
theorem C1_identity_map_unique (ops : List Op) (hg : ∀ op ∈ ops, goodOp op)
    (name : String) (k : Int) :
    countPair (run initState ops) name (.num k) ≤ 1 :=
  ((inv_run initState ops inv_initState hg) name).2.2.1 k

/-- Witness for C1 at a concrete sequence of calls. -/
theorem C1_witness :
    countPair (run initState
        [.construct uCls [("id", .num 1)], .getRef uCls (.num 1),
          .construct uCls [("id", .num 1), ("name", .num 3)]])
      "User" (.num 1) ≤ 1 :=
  C1_identity_map_unique
    [.construct uCls [("id", .num 1)], .getRef uCls (.num 1),
      .construct uCls [("id", .num 1), ("name", .num 3)]]
    (by
      intro op hop
      rcases List.mem_cons.mp hop with h | hop2
      · subst h
        exact ⟨by decide, pId, rfl, rfl, rfl⟩
      rcases List.mem_cons.mp hop2 with h | hop3
      · subst h
        exact trivial
      rcases List.mem_cons.mp hop3 with h | hop4
      · subst h
        exact ⟨by decide, pId, rfl, rfl, rfl⟩
      · simp at hop4)
    "User" 1

end RRM
